import Mathlib

/-!
Verification of the installer core of `claude-code-installer`.

The Go functions under `internal/installer` and `internal/updater` are
embedded shallowly: pure string/number manipulation becomes Lean functions
over `List Char` / `Int` / `Nat`; effectful operations (HTTP body reads,
file writes, polling with a cancellable context) become functions of an
explicit description of the environment's behaviour (the list of chunk
sizes a response body delivers, booleans saying whether a read/close
fails, a tick-indexed cancellation signal).  Machine integers are `Int`
with explicit two's-complement wrapping where Go overflow matters.
-/

namespace ClaudeInstaller

/-! ## Network security gate (`newTrustedCheckRedirect`, installer.go) -/

/-- Constant `maxRedirects` from installer.go / httputil. -/
def maxRedirects : Nat := 10

/-- Shallow embedding of the closure returned by `newTrustedCheckRedirect`.
A redirect request is described by its URL's scheme and hostname together
with the length of the chain of prior requests (`len(via)`).  Returns
`none` for "allow" (the Go function returns `nil`) and `some msg` for the
error that aborts the redirect. -/
def newTrustedCheckRedirect (trustedHosts : List String)
    (scheme hostname : String) (viaLen : Nat) : Option String :=
  if viaLen ≥ maxRedirects then
    some "too many redirects"
  else if scheme ≠ "https" then
    some ("redirect to non-HTTPS scheme: " ++ scheme)
  else if trustedHosts.contains hostname then
    none
  else
    some ("redirect to untrusted host: " ++ hostname)

/-! ## Version comparison (`internal/updater/updater.go`) -/

/-- Go `unicode.IsSpace` (the white-space code points recognised by
`strings.TrimSpace` and `strings.Fields`). -/
def goIsSpace (c : Char) : Bool :=
  c.toNat = 9 || c.toNat = 10 || c.toNat = 11 || c.toNat = 12 ||
  c.toNat = 13 || c.toNat = 32 || c.toNat = 0x85 || c.toNat = 0xA0 ||
  c.toNat = 0x1680 || (0x2000 ≤ c.toNat && c.toNat ≤ 0x200A) ||
  c.toNat = 0x2028 || c.toNat = 0x2029 || c.toNat = 0x202F ||
  c.toNat = 0x205F || c.toNat = 0x3000

/-- Go `strings.TrimSpace` on an exploded string. -/
def trimSpaceList (l : List Char) : List Char :=
  ((l.dropWhile goIsSpace).reverse.dropWhile goIsSpace).reverse

/-- Go `strings.Split` with a one-character separator (both separators the
repo uses, `"."` and `"\n"`, are single ASCII characters). -/
def splitOnChar (sep : Char) : List Char → List (List Char)
  | [] => [[]]
  | c :: cs =>
    match splitOnChar sep cs with
    | h :: t => if c = sep then [] :: h :: t else (c :: h) :: t
    | [] => if c = sep then [[], []] else [[c]]

/-- `cleanVersion` from updater.go: trim whitespace, then strip one
leading `v`, then one leading `V`. -/
def cleanVersion (version : String) : String :=
  let l := trimSpaceList version.toList
  let l := match l with
    | 'v' :: rest => rest
    | other => other
  let l := match l with
    | 'V' :: rest => rest
    | other => other
  String.mk l

/-- Two's-complement wrap of an exact integer to a signed 64-bit value,
as Go `int` arithmetic behaves on the 64-bit targets this repo builds. -/
def wrap64 (x : Int) : Int :=
  let m := x % (2 ^ 64)
  if m < 2 ^ 63 then m else m - 2 ^ 64

/-- The digit-accumulation loop inside `parseVersionParts`: consume the
longest digit run; on an accumulate that comes out below the running value
(the code's overflow test) stop and keep the running value. -/
def parseSegment : List Char → Int → Int
  | [], val => val
  | ch :: rest, val =>
    if '0' ≤ ch && ch ≤ '9' then
      let newVal := wrap64 (val * 10 + ((ch.toNat : Int) - ('0'.toNat : Int)))
      if newVal < val then val else parseSegment rest newVal
    else val

/-- `parseVersionParts` from updater.go: split on `.`, parse each segment
with `parseSegment` starting from 0. -/
def parseVersionParts (version : String) : List Int :=
  (splitOnChar '.' version.toList).map (fun part => parseSegment part 0)

/-- Pad a parts list with zeros up to length `n` — the Go loop reads
index `i` of each list, defaulting to 0 past the end. -/
def padZeros (l : List Int) (n : Nat) : List Int :=
  l ++ List.replicate (n - l.length) 0

/-- The comparison loop of `compareVersions` over two equal-length padded
parts lists. -/
def comparePadded : List Int → List Int → Int
  | a :: as, b :: bs => if a < b then -1 else if b < a then 1 else comparePadded as bs
  | _, _ => 0

/-- `compareVersions` from updater.go. -/
def compareVersions (a b : String) : Int :=
  let aParts := parseVersionParts a
  let bParts := parseVersionParts b
  let maxLen := max aParts.length bParts.length
  comparePadded (padZeros aParts maxLen) (padZeros bParts maxLen)

/-! ## Availability poller (`pollForCommand`, installer.go)

The loop body does a `LookPath`, then a `select` between the context's
done channel and a one-second timer.  `avail t` says whether the command
resolves at the check of iteration `t`; `ctxDone t` says whether the
cancellation signal has fired by the `select` of iteration `t`.  The
second component of the result counts the one-second ticks that fully
elapsed before the function returned. -/

/-- Loop of `pollForCommand`, one constructor-nil outcome per Go `return`:
`none` models a `nil` error return, `some msg` an error return. -/
def pollLoop (avail ctxDone : Nat → Bool) (ctxErrMsg : String) :
    Nat → Nat → Option String × Nat
  | 0, attempt => (none, attempt)
  | fuel + 1, attempt =>
    if avail attempt then (none, attempt)
    else if ctxDone attempt then
      (some ("installation cancelled: " ++ ctxErrMsg), attempt)
    else pollLoop avail ctxDone ctxErrMsg fuel (attempt + 1)

/-- `pollForCommand` from installer.go.  Note the Go function falls off
the end of its attempt loop with `return nil`. -/
def pollForCommand (avail ctxDone : Nat → Bool) (ctxErrMsg : String)
    (maxAttempts : Nat) : Option String × Nat :=
  pollLoop avail ctxDone ctxErrMsg maxAttempts 0

/-! ## Download engine (`downloadFile`, installer.go)

The model starts after the 200-OK response and the successful
`os.OpenFile` (the earlier error returns happen before the destination
file exists and are outside claims C2/C4/C9).  The response body is an
arbitrary reader described by `chunks`, the byte counts its successive
reads would deliver, followed by EOF or — when `readFails` — a read
error.  `io.Copy` reads through `io.LimitReader(·, maxDownloadSize)`
with its default 32 KiB buffer, so each read request is
`min copyBufSize remaining` and the body delivers
`min chunk request` bytes. -/

/-- Constant `maxDownloadSize` from installer.go (500 MB). -/
def maxDownloadSize : Nat := 500 * 1024 * 1024

/-- Default buffer size of Go's `io.Copy`. -/
def copyBufSize : Nat := 32768

/-- Simulates `io.Copy(out, io.LimitReader(pr, rem))` where `pr` is the
`progressReader` over the body. Returns `(bytesWritten, trace, failed)`:
`trace` is the sequence of cumulative `bytesRead` values passed to the
progress callback (one per read that reaches the `progressReader`), and
`failed` says whether the copy ended in a read error. -/
def copyLimited (readFails : Bool) : List Nat → Nat → Nat → Nat × List Nat × Bool
  | [], rem, acc =>
    -- body exhausted: the next read through the limiter either hits the
    -- limiter's EOF (rem = 0, inner reader not consulted) or reaches the
    -- body, which answers 0 bytes plus EOF or the read error.
    if rem = 0 then (acc, [], false) else (acc, [acc], readFails)
  | c :: cs, rem, acc =>
    if rem = 0 then (acc, [], false)
    else
      let n := min c (min copyBufSize rem)
      let r := copyLimited readFails cs (rem - n) (acc + n)
      (r.1, (acc + n) :: r.2.1, r.2.2)

/-- Error cases `downloadFile` can return after the destination file was
created. -/
inductive DownloadErr where
  | tooLarge
  | copyFailed
  | closeFailed
deriving DecidableEq, Repr

/-- Observable outcome of `downloadFile`: the returned error (if any),
whether the destination file still exists afterwards and with how many
bytes, and the percentages of the progress records emitted. -/
structure DownloadResult where
  err : Option DownloadErr
  fileExists : Bool
  fileSize : Nat
  progress : List ℚ
deriving Repr

/-- Shallow embedding of `downloadFile` from the 200-OK point on.
`contentLength` is `resp.ContentLength` (Go `int64`, `-1` when unknown);
`closeFails` says whether `out.Close()` reports an error. -/
def downloadFileModel (contentLength : Int) (chunks : List Nat)
    (readFails closeFails : Bool) : DownloadResult :=
  if 0 < contentLength then
    if (maxDownloadSize : Int) < contentLength then
      -- early return: no close, no remove — the empty file stays behind
      { err := some .tooLarge, fileExists := true, fileSize := 0, progress := [0] }
    else
      let r := copyLimited readFails chunks maxDownloadSize 0
      let pcts := (0 : ℚ) ::
        r.2.1.map (fun (br : Nat) => ((br : ℚ) / (contentLength : ℚ)) * 100)
      if r.2.2 then
        { err := some .copyFailed, fileExists := false, fileSize := 0, progress := pcts }
      else if closeFails then
        { err := some .closeFailed, fileExists := false, fileSize := 0, progress := pcts }
      else
        { err := none, fileExists := true, fileSize := r.1, progress := pcts }
  else
    -- unknown length: plain copy through the limiter, no progress callbacks
    let r := copyLimited readFails chunks maxDownloadSize 0
    if r.2.2 then
      { err := some .copyFailed, fileExists := false, fileSize := 0, progress := [0] }
    else if closeFails then
      { err := some .closeFailed, fileExists := false, fileSize := 0, progress := [0] }
    else
      { err := none, fileExists := true, fileSize := r.1, progress := [0] }

/-- Go's net/http transport wraps a response body whose Content-Length is
known and positive in `io.LimitReader(·, ContentLength)` (transfer.go), so
whatever the server streams, `resp.Body` delivers at most `ContentLength`
bytes in total.  `truncateChunks` applies that cap to a server's chunk
stream: each read delivers at most the remaining budget, and the body is
exhausted once the budget is. -/
def truncateChunks : List Nat → Nat → List Nat
  | [], _ => []
  | c :: cs, rem =>
    if rem = 0 then []
    else min c rem :: truncateChunks cs (rem - min c rem)

/-- The body `downloadFile` actually reads from: the server's stream
capped by the transport at a positive declared Content-Length, and
delivered unchanged when no length is declared (chunked transfer,
`ContentLength ≤ 0`). -/
def respBody (contentLength : Int) (serverChunks : List Nat) : List Nat :=
  if 0 < contentLength then truncateChunks serverChunks contentLength.toNat
  else serverChunks

/-- `downloadFile` as a function of what the server sends over the wire:
`downloadFileModel` fed through the transport's body cap. -/
def downloadFileHTTP (contentLength : Int) (serverChunks : List Nat)
    (readFails closeFails : Bool) : DownloadResult :=
  downloadFileModel contentLength (respBody contentLength serverChunks)
    readFails closeFails

/-! ## Checksum manifest lookup (`findChecksumInSHASUMS`, installer.go) -/

/-- The hex test of the `validHex` loop in `findChecksumInSHASUMS`. -/
def isGoHexDigit (c : Char) : Bool :=
  ('0' ≤ c && c ≤ '9') || ('a' ≤ c && c ≤ 'f') || ('A' ≤ c && c ≤ 'F')

/-- Go `len` of a string: its UTF-8 byte length. -/
def goByteLen (l : List Char) : Nat :=
  l.foldr (fun c n => c.utf8Size + n) 0

/-- Accumulator pass of Go `strings.Fields`: split around runs of
white space, dropping empty pieces. -/
def fieldsAux : List Char → List Char → List (List Char)
  | [], cur => if cur = [] then [] else [cur.reverse]
  | c :: cs, cur =>
    if goIsSpace c then
      if cur = [] then fieldsAux cs [] else cur.reverse :: fieldsAux cs []
    else fieldsAux cs (c :: cur)

/-- Go `strings.Fields` on an exploded string. -/
def fieldsList (l : List Char) : List (List Char) :=
  fieldsAux l []

/-- Go `strings.TrimPrefix(name, "*")`: drop one leading `*` when present. -/
def stripStar : List Char → List Char
  | '*' :: rest => rest
  | other => other

/-- The loop body of `findChecksumInSHASUMS` for one manifest line:
trim, skip blanks, require at least two fields, require the first field
to be 64 bytes of hex, strip one leading `*` from the second field, and
match it against the wanted filename. -/
def lineDigest (filename line : List Char) : Option (List Char) :=
  if trimSpaceList line = [] then none
  else
    match fieldsList (trimSpaceList line) with
    | hash :: name :: _ =>
      if goByteLen hash = 64 then
        if hash.all isGoHexDigit then
          if stripStar name = filename then some hash else none
        else none
      else none
    | _ => none

/-- Line scan of `findChecksumInSHASUMS`: first line with a digest wins. -/
def findChecksumList (filename : List Char) : List (List Char) → Option (List Char)
  | [] => none
  | line :: rest =>
    match lineDigest filename line with
    | some h => some h
    | none => findChecksumList filename rest

/-- `findChecksumInSHASUMS` from installer.go. -/
def findChecksumInSHASUMS (shasumsContent filename : String) : Option String :=
  (findChecksumList filename.toList (splitOnChar '\n' shasumsContent.toList)).map String.mk

/-! ## Helper lemmas -/

theorem comparePadded_self (l : List Int) : comparePadded l l = 0 := by
  induction l with
  | nil => rfl
  | cons a as ih => simp [comparePadded, ih]

theorem comparePadded_trichotomy (l1 : List Int) : ∀ l2 : List Int,
    comparePadded l1 l2 = -1 ∨ comparePadded l1 l2 = 0 ∨ comparePadded l1 l2 = 1 := by
  induction l1 with
  | nil => intro l2; cases l2 <;> simp [comparePadded]
  | cons a as ih =>
    intro l2
    cases l2 with
    | nil => simp [comparePadded]
    | cons b bs =>
      by_cases hab : a < b
      · simp [comparePadded, hab]
      · by_cases hba : b < a
        · simp [comparePadded, hab, hba]
        · simpa [comparePadded, hab, hba] using ih bs

theorem comparePadded_antisymm (l1 : List Int) : ∀ l2 : List Int,
    comparePadded l1 l2 = -comparePadded l2 l1 := by
  induction l1 with
  | nil => intro l2; cases l2 <;> simp [comparePadded]
  | cons a as ih =>
    intro l2
    cases l2 with
    | nil => simp [comparePadded]
    | cons b bs =>
      by_cases hab : a < b
      · have hba : ¬ b < a := by omega
        simp [comparePadded, hab, hba]
      · by_cases hba : b < a
        · simp [comparePadded, hab, hba]
        · simpa [comparePadded, hab, hba] using ih bs

theorem compareVersions_self (s : String) : compareVersions s s = 0 := by
  unfold compareVersions
  simpa [padZeros] using comparePadded_self (parseVersionParts s)

theorem copyLimited_written_le (rf : Bool) (chunks : List Nat) :
    ∀ rem acc : Nat, (copyLimited rf chunks rem acc).1 ≤ acc + rem := by
  induction chunks with
  | nil =>
    intro rem acc
    simp only [copyLimited]
    split <;> simp
  | cons c cs ih =>
    intro rem acc
    simp only [copyLimited]
    split
    · simp
    · have hn : min c (min copyBufSize rem) ≤ rem :=
        le_trans (Nat.min_le_right _ _) (Nat.min_le_right _ _)
      calc (copyLimited rf cs (rem - min c (min copyBufSize rem))
              (acc + min c (min copyBufSize rem))).1
          ≤ (acc + min c (min copyBufSize rem)) +
              (rem - min c (min copyBufSize rem)) := ih _ _
        _ ≤ acc + rem := by omega

theorem copyLimited_trace_le (rf : Bool) (chunks : List Nat) :
    ∀ rem acc b : Nat, b ∈ (copyLimited rf chunks rem acc).2.1 → b ≤ acc + chunks.sum := by
  induction chunks with
  | nil =>
    intro rem acc b hb
    simp only [copyLimited] at hb
    split at hb
    · simp at hb
    · simp at hb
      simp [hb]
  | cons c cs ih =>
    intro rem acc b hb
    simp only [copyLimited] at hb
    split at hb
    · simp at hb
    · have hn : min c (min copyBufSize rem) ≤ c := Nat.min_le_left _ _
      rcases List.mem_cons.mp hb with hb | hb
      · subst hb
        simp only [List.sum_cons]
        omega
      · have := ih _ _ _ hb
        simp only [List.sum_cons]
        omega

theorem truncateChunks_sum_le (l : List Nat) : ∀ n : Nat, (truncateChunks l n).sum ≤ n := by
  induction l with
  | nil => intro n; simp [truncateChunks]
  | cons c cs ih =>
    intro n
    simp only [truncateChunks]
    split
    · simp
    · have hc : min c n ≤ n := Nat.min_le_right _ _
      have := ih (n - min c n)
      simp only [List.sum_cons]
      omega

theorem findChecksumList_some (fn : List Char) (h : List Char) :
    ∀ L : List (List Char), findChecksumList fn L = some h →
      ∃ line ∈ L, lineDigest fn line = some h := by
  intro L
  induction L with
  | nil => intro hEq; simp [findChecksumList] at hEq
  | cons l ls ih =>
    intro hEq
    simp only [findChecksumList] at hEq
    cases hld : lineDigest fn l with
    | some h' =>
      simp only [hld, Option.some.injEq] at hEq
      exact ⟨l, List.mem_cons_self l ls, by rw [hld, hEq]⟩
    | none =>
      simp only [hld] at hEq
      obtain ⟨line, hm, hl⟩ := ih hEq
      exact ⟨line, List.mem_cons_of_mem _ hm, hl⟩

theorem findChecksumList_none_iff (fn : List Char) :
    ∀ L : List (List Char), findChecksumList fn L = none ↔
      ∀ line ∈ L, lineDigest fn line = none := by
  intro L
  induction L with
  | nil => simp [findChecksumList]
  | cons l ls ih =>
    simp only [findChecksumList]
    cases hld : lineDigest fn l with
    | some h' => simp [hld]
    | none => simp [hld, ih]

theorem lineDigest_hash_shape (fn line h : List Char)
    (hEq : lineDigest fn line = some h) :
    goByteLen h = 64 ∧ h.all isGoHexDigit = true := by
  unfold lineDigest at hEq
  split at hEq
  · exact absurd hEq (by simp)
  · split at hEq
    · split at hEq
      · split at hEq
        · split at hEq
          · have hh := Option.some.inj hEq
            subst hh
            rename_i hlen hhex hname
            exact ⟨hlen, hhex⟩
          · exact absurd hEq (by simp)
        · exact absurd hEq (by simp)
      · exact absurd hEq (by simp)
    · exact absurd hEq (by simp)

/-! ## Claim theorems -/

/-- C1: the redirect policy produced by `newTrustedCheckRedirect` approves
a candidate redirect if and only if the chain of prior requests is shorter
than 10, the scheme is exactly `https`, and the hostname is exactly equal
to an entry of the trusted-host list; in every other case it returns an
error. -/
theorem trustedCheckRedirect_approves_iff (trusted : List String)
    (scheme hostname : String) (viaLen : Nat) :
    newTrustedCheckRedirect trusted scheme hostname viaLen = none ↔
      viaLen < 10 ∧ scheme = "https" ∧ hostname ∈ trusted := by
  unfold newTrustedCheckRedirect maxRedirects
  split_ifs with h1 h2 h3 <;> simp_all

/-- C5 (code bug evidence): `pollForCommand` for a command that never
becomes resolvable, with the 3 attempts the repo's own test uses,
terminates after its 3 one-second ticks but returns `nil` — no error at
all, in particular no "not found in PATH" error naming the command. -/
theorem pollForCommand_exhausted_returns_nil :
    pollForCommand (fun _ => false) (fun _ => false) "context canceled" 3 = (none, 3) := by
  decide

/-- C6 counterexample: with the cancellation signal already fired, the
claim "returns a cancellation-flavored error for every command name and
maxAttempts" fails — a command resolvable at the first check returns
`nil`, and so does a zero-attempt budget. -/
theorem pollForCommand_cancelled_counterexample :
    (pollForCommand (fun _ => true) (fun _ => true) "context canceled" 5).1 = none ∧
    (pollForCommand (fun _ => false) (fun _ => true) "context canceled" 0).1 = none := by
  decide

/-- C6 (amended): if the cancellation signal has fired by the first
iteration, the attempt budget is at least 1, and the command does not
resolve at the first check, `pollForCommand` returns the cancellation
error with zero polling ticks elapsed — promptly, not after the attempt
budget. -/
theorem pollForCommand_cancelled_prompt (avail ctxDone : Nat → Bool)
    (msg : String) (maxAttempts : Nat) (hN : 1 ≤ maxAttempts)
    (hAvail : avail 0 = false) (hDone : ctxDone 0 = true) :
    pollForCommand avail ctxDone msg maxAttempts =
      (some ("installation cancelled: " ++ msg), 0) := by
  obtain ⟨k, rfl⟩ : ∃ k, maxAttempts = k + 1 := ⟨maxAttempts - 1, by omega⟩
  simp [pollForCommand, pollLoop, hAvail, hDone]

/-- Witness for `pollForCommand_cancelled_prompt` at a concrete input. -/
theorem pollForCommand_cancelled_prompt_witness :
    pollForCommand (fun _ => false) (fun _ => true) "context canceled" 10 =
      (some ("installation cancelled: " ++ "context canceled"), 0) :=
  pollForCommand_cancelled_prompt (fun _ => false) (fun _ => true)
    "context canceled" 10 (by decide) rfl rfl

/-- C7: the version comparison is reflexive (`compare(a,a) = 0` for every
string), agrees with the spec on the listed concrete pairs (after
`cleanVersion` stripping), and always returns exactly one of -1, 0, 1. -/
theorem compareVersions_claimed_properties :
    (∀ a : String, compareVersions (cleanVersion a) (cleanVersion a) = 0)
    ∧ compareVersions (cleanVersion "1.0") (cleanVersion "1.0.0") = 0
    ∧ compareVersions (cleanVersion "1.0.0") (cleanVersion "1.0.1") = -1
    ∧ compareVersions (cleanVersion "2.0.0") (cleanVersion "1.9.9") = 1
    ∧ compareVersions (cleanVersion "v1.0.0") (cleanVersion "1.0.0") = 0
    ∧ ∀ a b : String,
        compareVersions a b = -1 ∨ compareVersions a b = 0 ∨ compareVersions a b = 1 := by
  refine ⟨fun a => compareVersions_self _, by decide, by decide, by decide, by decide, ?_⟩
  intro a b
  unfold compareVersions
  exact comparePadded_trichotomy _ _

/-- C8 (code bug evidence): `parseVersionParts` does not always cap at
the last valid accumulated value on overflow.  On the 20-digit segment
`20500000000000000000` the wrapped accumulator 2053255926290448384 is
still larger than the previous value 2050000000000000000, so the
overflow test `newVal < val` does not fire and the wrapped value is
returned instead of the cap. -/
theorem parseVersionParts_overflow_wraps :
    parseVersionParts "20500000000000000000" = [2053255926290448384] ∧
    parseVersionParts "20500000000000000000" ≠ [2050000000000000000] := by
  decide

/-- C10 (implicit): `compareVersions` is antisymmetric,
`compare(a,b) = -compare(b,a)` for all strings. -/
theorem compareVersions_antisymm (a b : String) :
    compareVersions a b = -compareVersions b a := by
  unfold compareVersions
  simp only [max_comm (parseVersionParts b).length (parseVersionParts a).length]
  exact comparePadded_antisymm _ _

/-- C2 counterexample: when the declared content length exceeds the
500 MB ceiling, `downloadFile` returns the error while the just-created
(empty, truncated) destination file is left in place — it is not deleted
before the error is returned. -/
theorem downloadFile_tooLarge_leaves_file :
    (downloadFileModel 524288001 [] false false).err = some DownloadErr.tooLarge ∧
    (downloadFileModel 524288001 [] false false).fileExists = true := by
  constructor <;> simp [downloadFileModel, maxDownloadSize]

/-- C2 (amended): error returns caused by a copy/read failure or by a
close/finalize failure delete the destination file before returning, and
a copy failure is the error reported even when the close also fails; but
the declared-size-too-large error returns with the empty destination
file still in place. -/
theorem downloadFile_cleanup (cl : Int) (chunks : List Nat) (rf cf : Bool) :
    ((downloadFileModel cl chunks rf cf).err = some DownloadErr.copyFailed ∨
      (downloadFileModel cl chunks rf cf).err = some DownloadErr.closeFailed →
      (downloadFileModel cl chunks rf cf).fileExists = false)
    ∧ (cl ≤ (maxDownloadSize : Int) →
        (copyLimited rf chunks maxDownloadSize 0).2.2 = true →
        (downloadFileModel cl chunks rf cf).err = some DownloadErr.copyFailed)
    ∧ ((maxDownloadSize : Int) < cl →
        (downloadFileModel cl chunks rf cf).err = some DownloadErr.tooLarge ∧
        (downloadFileModel cl chunks rf cf).fileExists = true ∧
        (downloadFileModel cl chunks rf cf).fileSize = 0) := by
  by_cases h1 : 0 < cl
  · by_cases h2 : (maxDownloadSize : Int) < cl
    · refine ⟨?_, ?_, ?_⟩
      · intro hc
        rcases hc with hc | hc <;> simp [downloadFileModel, h1, h2] at hc
      · intro hle _
        exact absurd h2 (not_lt.mpr hle)
      · intro _
        simp [downloadFileModel, h1, h2]
    · refine ⟨?_, ?_, ?_⟩
      · intro hc
        by_cases hf : (copyLimited rf chunks maxDownloadSize 0).2.2 = true
        · simp [downloadFileModel, h1, h2, hf]
        · by_cases hcf : cf = true
          · simp [downloadFileModel, h1, h2, hf, hcf]
          · rcases hc with hc | hc <;> simp [downloadFileModel, h1, h2, hf, hcf] at hc
      · intro _ hf
        simp [downloadFileModel, h1, h2, hf]
      · intro h2'
        exact absurd h2' h2
  · have h2 : ¬ (maxDownloadSize : Int) < cl := by
      have hp : (0 : Int) < (maxDownloadSize : Int) := by norm_num [maxDownloadSize]
      omega
    refine ⟨?_, ?_, ?_⟩
    · intro hc
      by_cases hf : (copyLimited rf chunks maxDownloadSize 0).2.2 = true
      · simp [downloadFileModel, h1, hf]
      · by_cases hcf : cf = true
        · simp [downloadFileModel, h1, hf, hcf]
        · rcases hc with hc | hc <;> simp [downloadFileModel, h1, hf, hcf] at hc
    · intro _ hf
      simp [downloadFileModel, h1, hf]
    · intro h2'
      exact absurd h2' h2

/-- Witness for `downloadFile_cleanup` at a concrete input where both
the copy and the close fail: the copy error is reported and the file is
gone. -/
theorem downloadFile_cleanup_witness :
    (downloadFileModel 1 [] true true).err = some DownloadErr.copyFailed ∧
    (downloadFileModel 1 [] true true).fileExists = false := by
  have h := downloadFile_cleanup 1 [] true true
  have he := h.2.1 (by norm_num [maxDownloadSize]) (by decide)
  exact ⟨he, h.1 (Or.inl he)⟩

/-- C4: `downloadFile` fails on a declared content length over the 500 MB
ceiling, and a successful return's destination file has at most
`maxDownloadSize` bytes, whatever the body streams and whether or not a
length was declared. -/
theorem downloadFile_size_ceiling (cl : Int) (chunks : List Nat) (rf cf : Bool) :
    ((maxDownloadSize : Int) < cl →
      (downloadFileModel cl chunks rf cf).err = some DownloadErr.tooLarge)
    ∧ ((downloadFileModel cl chunks rf cf).err = none →
      (downloadFileModel cl chunks rf cf).fileSize ≤ maxDownloadSize) := by
  constructor
  · intro h2
    have h1 : 0 < cl := lt_trans (by norm_num [maxDownloadSize]) h2
    simp [downloadFileModel, h1, h2]
  · intro hnone
    have hw := copyLimited_written_le rf chunks maxDownloadSize 0
    by_cases h1 : 0 < cl
    · by_cases h2 : (maxDownloadSize : Int) < cl
      · simp [downloadFileModel, h1, h2] at hnone
      · by_cases hf : (copyLimited rf chunks maxDownloadSize 0).2.2 = true
        · simp [downloadFileModel, h1, h2, hf] at hnone
        · by_cases hcf : cf = true
          · simp [downloadFileModel, h1, h2, hf, hcf] at hnone
          · simp [downloadFileModel, h1, h2, hf, hcf]
            omega
    · by_cases hf : (copyLimited rf chunks maxDownloadSize 0).2.2 = true
      · simp [downloadFileModel, h1, hf] at hnone
      · by_cases hcf : cf = true
        · simp [downloadFileModel, h1, hf, hcf] at hnone
        · simp [downloadFileModel, h1, hf, hcf]
          omega

/-- Witness for `downloadFile_size_ceiling`: the over-ceiling rejection
at 500 MB + 1, and the size bound on a successful 1-byte download. -/
theorem downloadFile_size_ceiling_witness :
    (downloadFileModel 524288001 [1000] false false).err = some DownloadErr.tooLarge ∧
    (downloadFileModel 1 [1] false false).fileSize ≤ maxDownloadSize := by
  refine ⟨(downloadFile_size_ceiling 524288001 [1000] false false).1 (by norm_num [maxDownloadSize]),
    (downloadFile_size_ceiling 1 [1] false false).2 (by decide)⟩

/-- Progress bounds of `downloadFileModel` over an arbitrary body: every
emitted percentage is nonnegative, and at most 100 whenever the body
delivers at most the declared content length (or no length is declared,
in which case no percentages are computed). -/
theorem downloadFileModel_progress_bounds (cl : Int) (chunks : List Nat) (rf cf : Bool) :
    (∀ p ∈ (downloadFileModel cl chunks rf cf).progress, 0 ≤ p)
    ∧ ((chunks.sum : Int) ≤ cl ∨ cl ≤ 0 →
        ∀ p ∈ (downloadFileModel cl chunks rf cf).progress, p ≤ 100) := by
  by_cases h1 : 0 < cl
  · by_cases h2 : (maxDownloadSize : Int) < cl
    · constructor
      · intro p hp
        simp [downloadFileModel, h1, h2] at hp
        simp [hp]
      · intro _ p hp
        simp [downloadFileModel, h1, h2] at hp
        simp [hp]
    · have hprog : (downloadFileModel cl chunks rf cf).progress =
          (0 : ℚ) :: (copyLimited rf chunks maxDownloadSize 0).2.1.map
            (fun (br : Nat) => ((br : ℚ) / (cl : ℚ)) * 100) := by
        by_cases hf : (copyLimited rf chunks maxDownloadSize 0).2.2 = true
        · simp [downloadFileModel, h1, h2, hf]
        · by_cases hcf : cf = true
          · simp [downloadFileModel, h1, h2, hf, hcf]
          · simp [downloadFileModel, h1, h2, hf, hcf]
      have hclq : (0 : ℚ) < (cl : ℚ) := by exact_mod_cast h1
      constructor
      · intro p hp
        rw [hprog] at hp
        rcases List.mem_cons.mp hp with hp | hp
        · simp [hp]
        · obtain ⟨br, _, rfl⟩ := List.mem_map.mp hp
          exact mul_nonneg (div_nonneg (Nat.cast_nonneg br) hclq.le) (by norm_num)
      · intro hsum p hp
        have hsum' : (chunks.sum : Int) ≤ cl := by
          rcases hsum with hsum | hsum
          · exact hsum
          · omega
        rw [hprog] at hp
        rcases List.mem_cons.mp hp with hp | hp
        · simp [hp]
        · obtain ⟨br, hbr, rfl⟩ := List.mem_map.mp hp
          have hble : br ≤ chunks.sum := by
            simpa using copyLimited_trace_le rf chunks maxDownloadSize 0 br hbr
          have hq : (br : ℚ) ≤ (cl : ℚ) := by
            have hbi : (br : Int) ≤ cl := le_trans (by exact_mod_cast hble) hsum'
            exact_mod_cast hbi
          calc ((br : ℚ) / (cl : ℚ)) * 100
              ≤ 1 * 100 :=
                mul_le_mul_of_nonneg_right ((div_le_one hclq).mpr hq) (by norm_num)
            _ = 100 := by norm_num
  · have hprog : (downloadFileModel cl chunks rf cf).progress = [0] := by
      by_cases hf : (copyLimited rf chunks maxDownloadSize 0).2.2 = true
      · simp [downloadFileModel, h1, hf]
      · by_cases hcf : cf = true
        · simp [downloadFileModel, h1, hf, hcf]
        · simp [downloadFileModel, h1, hf, hcf]
    rw [hprog]
    constructor
    · intro p hp
      simp at hp
      simp [hp]
    · intro _ p hp
      simp at hp
      simp [hp]

/-- C9: every InstallProgress record emitted during `downloadFile` has a
percentage in [0, 100], for every byte stream the server may send —
including a stream delivering more bytes than the declared content
length, since the HTTP transport caps `resp.Body` at a positive declared
Content-Length and the code computes no percentages when no length is
declared. -/
theorem downloadFile_progress_unit_interval (cl : Int) (serverChunks : List Nat)
    (rf cf : Bool) :
    ∀ p ∈ (downloadFileHTTP cl serverChunks rf cf).progress, 0 ≤ p ∧ p ≤ 100 := by
  intro p hp
  have hb := downloadFileModel_progress_bounds cl (respBody cl serverChunks) rf cf
  refine ⟨hb.1 p hp, hb.2 ?_ p hp⟩
  by_cases h1 : 0 < cl
  · left
    have hsum : (truncateChunks serverChunks cl.toNat).sum ≤ cl.toNat :=
      truncateChunks_sum_le _ _
    have hsum' : (respBody cl serverChunks).sum ≤ cl.toNat := by
      simpa [respBody, h1] using hsum
    have hcast : ((respBody cl serverChunks).sum : Int) ≤ (cl.toNat : Int) :=
      Int.ofNat_le.mpr hsum'
    simpa [Int.toNat_of_nonneg h1.le] using hcast
  · right
    omega

/-- Witness for `downloadFile_progress_unit_interval`: with declared
length 1 and a server that streams 2 bytes (more than declared), the
emitted percentage 0 lies in [0, 100]. -/
theorem downloadFile_progress_unit_interval_witness :
    (0 : ℚ) ∈ (downloadFileHTTP 1 [2] false false).progress ∧
    0 ≤ (0 : ℚ) ∧ (0 : ℚ) ≤ 100 := by
  have hm : (0 : ℚ) ∈ (downloadFileHTTP 1 [2] false false).progress := by
    simp [downloadFileHTTP, respBody, truncateChunks, downloadFileModel,
      copyLimited, copyBufSize, maxDownloadSize]
  exact ⟨hm, downloadFile_progress_unit_interval 1 [2] false false 0 hm⟩

/-- C3: a digest returned by `findChecksumInSHASUMS` is always the
64-hex-byte first token of some manifest line whose (star-stripped)
filename token equals the target exactly (so a shorter digest is never
returned), the scan returns an error precisely when no line matches
(`lineDigest` is the per-line acceptance: trim, skip blanks, at least two
whitespace-separated fields, 64-hex first field, one optional leading `*`
stripped from the filename field, exact filename equality), and the empty
manifest always errors. -/
theorem findChecksumInSHASUMS_spec (content fn : String) :
    (∀ h : String, findChecksumInSHASUMS content fn = some h →
      (goByteLen h.toList = 64 ∧ h.toList.all isGoHexDigit = true) ∧
      ∃ line ∈ splitOnChar '\n' content.toList,
        lineDigest fn.toList line = some h.toList)
    ∧ (findChecksumInSHASUMS content fn = none ↔
      ∀ line ∈ splitOnChar '\n' content.toList, lineDigest fn.toList line = none)
    ∧ findChecksumInSHASUMS "" fn = none := by
  refine ⟨?_, ?_, ?_⟩
  · intro h hEq
    unfold findChecksumInSHASUMS at hEq
    obtain ⟨l, hl, hmk⟩ := Option.map_eq_some'.mp hEq
    subst hmk
    have htl : (String.mk l).toList = l := rfl
    rw [htl]
    obtain ⟨line, hm, hld⟩ := findChecksumList_some fn.toList l _ hl
    exact ⟨lineDigest_hash_shape fn.toList line l hld, ⟨line, hm, hld⟩⟩
  · unfold findChecksumInSHASUMS
    rw [Option.map_eq_none']
    exact findChecksumList_none_iff fn.toList _
  · rfl

/-- Witness for `findChecksumInSHASUMS_spec`: a concrete manifest line
with a `*`-prefixed filename matches the bare filename and yields its
64-hex digest. -/
theorem findChecksumInSHASUMS_spec_witness :
    findChecksumInSHASUMS
      "aaaaaaaaaaaaaaaaaaaaaaaaaaaaaaaaaaaaaaaaaaaaaaaaaaaaaaaaaaaaaaaa  *node.exe"
      "node.exe" =
      some "aaaaaaaaaaaaaaaaaaaaaaaaaaaaaaaaaaaaaaaaaaaaaaaaaaaaaaaaaaaaaaaa" ∧
    ((goByteLen ("aaaaaaaaaaaaaaaaaaaaaaaaaaaaaaaaaaaaaaaaaaaaaaaaaaaaaaaaaaaaaaaa" : String).toList = 64 ∧
      ("aaaaaaaaaaaaaaaaaaaaaaaaaaaaaaaaaaaaaaaaaaaaaaaaaaaaaaaaaaaaaaaa" : String).toList.all isGoHexDigit = true) ∧
      ∃ line ∈ splitOnChar '\n'
          ("aaaaaaaaaaaaaaaaaaaaaaaaaaaaaaaaaaaaaaaaaaaaaaaaaaaaaaaaaaaaaaaa  *node.exe" : String).toList,
        lineDigest ("node.exe" : String).toList line =
          some ("aaaaaaaaaaaaaaaaaaaaaaaaaaaaaaaaaaaaaaaaaaaaaaaaaaaaaaaaaaaaaaaa" : String).toList) := by
  have h1 : findChecksumInSHASUMS
      "aaaaaaaaaaaaaaaaaaaaaaaaaaaaaaaaaaaaaaaaaaaaaaaaaaaaaaaaaaaaaaaa  *node.exe"
      "node.exe" =
      some "aaaaaaaaaaaaaaaaaaaaaaaaaaaaaaaaaaaaaaaaaaaaaaaaaaaaaaaaaaaaaaaa" := by decide
  exact ⟨h1, (findChecksumInSHASUMS_spec
    "aaaaaaaaaaaaaaaaaaaaaaaaaaaaaaaaaaaaaaaaaaaaaaaaaaaaaaaaaaaaaaaa  *node.exe"
    "node.exe").1 _ h1⟩

end ClaudeInstaller
